import Mathlib

/-!
Verification of the sync core of the grayliquid/hub repository.

The engine under test is `src/src/network/sync/syncEngine.ts`; the gossip
encoding lives in `src/unnamed/part_001`.  Stateful TypeScript is embedded as
explicit state passing: the storage engine is a deterministic state machine
over an abstract state type, the RPC client is a deterministic oracle, and
every engine operation additionally returns the trace of RPC requests and
storage merges it performed, so that request patterns can be reasoned about.

Collaborators that are part of this repository but outside `src/` (the
MerkleTrie, TrieSnapshot, HubError, the JSON helpers, the gossip type guard)
are modelled from the specification; each such definition carries a doc
comment starting with `Modelled from the spec:`.
-/

/-- Modelled from the spec: the HubError class (utils/hubErrors.ts, outside
src/).  Per spec section 7 an error is domain-tagged by an errCode string such
as "unavailable.network_failure", carries a message, and exposes a numeric
status code (412 marks the unknown-user case).  The code under src/ inspects
only errCode equality and the status code. -/
structure HubError where
  errCode : String
  message : String
  statusCode : Nat
  deriving Repr, DecidableEq

/-- Modelled from the spec: the HubError constructor derives the status code
from the error code; the spec fixes only that the unknown-user / not_found
code maps to 412. -/
def mkHubError (code msg : String) : HubError :=
  { errCode := code, message := msg, statusCode := if code = "not_found" then 412 else 0 }

/-- The HubResult alias of utils/hubErrors.ts: a neverthrow Result embedded as
Except. -/
abbrev HubResult (α : Type) := Except HubError α

/-- True exactly on the error side: the neverthrow isErr check. -/
def isErr {ε α : Type} : Except ε α → Bool
  | .error _ => true
  | .ok _ => false

/-- syncEngine.ts line 13. -/
def SYNC_THRESHOLD_IN_SECONDS : Nat := 10

/-- syncEngine.ts line 14. -/
def HASHES_PER_FETCH : Nat := 50

/-- Modelled from the spec: the Message type (types.ts is outside src/).  The
sync engine reads only message.data.fid; spec section 3 additionally gives a
message its timestamp and hash, which identify it. -/
structure MessageData where
  fid : Nat
  timestamp : Nat
  deriving Repr, DecidableEq

/-- Modelled from the spec: a Farcaster message as the sync engine sees it. -/
structure Message where
  data : MessageData
  hash : String
  deriving Repr, DecidableEq

/-- Modelled from the spec: an identity-registry event, opaque to the sync
core beyond the user it concerns. -/
structure IdRegistryEvent where
  fid : Nat
  deriving Repr, DecidableEq

/-- Modelled from the spec: TrieSnapshot (trieNode.ts is outside src/), spec
section 3: a timestamp boundary, a message count, and the ordered
excluded-hash list.  The TS field named prefix is called pfx here, prefix
being a Lean keyword. -/
structure TrieSnapshot where
  pfx : String
  numMessages : Nat
  excludedHashes : List String
  deriving Repr, DecidableEq

/-- Modelled from the spec: NodeMetadata (merkleTrie.ts is outside src/), spec
section 3: the wire-visible projection of a trie node: its path, message
count, subtree hash, and an optional children map keyed by character,
embedded as an association list in map-iteration order.  The TS field named
prefix is called pfx here, prefix being a Lean keyword. -/
inductive NodeMetadata where
  | mk (pfx : String) (numMessages : Nat) (hash : String)
      (children : Option (List (Char × NodeMetadata)))
  deriving Repr

/-- The path of a node's metadata (the TS field named prefix). -/
def NodeMetadata.pfx : NodeMetadata → String
  | .mk p _ _ _ => p

/-- The message count of a node's metadata. -/
def NodeMetadata.numMessages : NodeMetadata → Nat
  | .mk _ n _ _ => n

/-- The subtree hash of a node's metadata. -/
def NodeMetadata.hash : NodeMetadata → String
  | .mk _ _ h _ => h

/-- The children map of a node's metadata, when present. -/
def NodeMetadata.children : NodeMetadata → Option (List (Char × NodeMetadata))
  | .mk _ _ _ c => c

/-- One RPC request the engine can issue, for the request traces. -/
inductive RpcCall where
  | syncMetadataByPrefix (pfx : String)
  | syncIdsByPrefix (pfx : String)
  | messagesByHashes (hashes : List String)
  | custodyEventByUser (fid : Nat)
  | allSignerMessagesByUser (fid : Nat)
  deriving Repr, DecidableEq

/-- The RPCClient surface consumed by syncEngine.ts, as a deterministic
oracle: each request is answered by a function of its arguments. -/
structure RPCClient where
  getSyncMetadataByPrefix : String → HubResult NodeMetadata
  getSyncIdsByPrefix : String → HubResult (List String)
  getMessagesByHashes : List String → HubResult (List Message)
  getCustodyEventByUser : Nat → HubResult IdRegistryEvent
  getAllSignerMessagesByUser : Nat → HubResult (List Message)

/-- Modelled from the spec: the storage-engine interface the sync engine
consumes (spec section 6), as a deterministic state machine over an abstract
state type: each merge returns its result together with the successor
state. -/
structure StorageModel (σ : Type) where
  mergeMessage : Message → String → σ → Except HubError Unit × σ
  mergeMessages : List Message → String → σ → List (Except HubError Unit) × σ
  mergeIdRegistryEvent : IdRegistryEvent → String → σ → Except HubError Unit × σ

/-- An observable step of the merge pipeline: an RPC request, a storage merge,
or entry into the dependency-recovery routine. -/
inductive EngineAction where
  | rpcCall (c : RpcCall)
  | mergeMessage (m : Message) (source : String)
  | mergeIdRegistryEvent (e : IdRegistryEvent) (source : String)
  | mergeMessages (ms : List Message) (source : String)
  | syncUserRetry (m : Message)
  deriving Repr, DecidableEq

/-- The optional chain at syncEngine.ts line 139:
ourNode?.children?.get(theirChildChar)?.hash — undefined whenever the local
node, its children map, or the child at that character is absent. -/
def ourChildHash (ourNode : Option NodeMetadata) (c : Char) : Option String :=
  ourNode.bind fun n => (n.children.bind fun cs => List.lookup c cs).map NodeMetadata.hash

/-- The JS call at syncEngine.ts line 76:
ourSnapshot.excludedHashes.every((value, index) => value === excludedHashes[index]),
unrolled with the running index: an out-of-range access yields undefined, which
compares unequal to every string. -/
def everyMatchesFrom (ours theirs : List String) (i : Nat) : Bool :=
  match ours with
  | [] => true
  | v :: rest => (some v == theirs.get? i) && everyMatchesFrom rest theirs (i + 1)

/-- syncEngine.ts lines 67-80.  The snapshot getter's value is passed in as
ourSnapshot (the trie computing it lives outside src/). -/
def shouldSync (isSyncing : Bool) (ourSnapshot : TrieSnapshot) (excludedHashes : List String) : Bool :=
  if isSyncing then
    false
  else
    let excludedHashesMatch :=
      (ourSnapshot.excludedHashes.length == excludedHashes.length) &&
        everyMatchesFrom ourSnapshot.excludedHashes excludedHashes 0
    !excludedHashesMatch

/-- syncEngine.ts lines 205-210: Date.now() is the nowMs parameter
(milliseconds), and Math.floor over a nonnegative quotient is Nat division. -/
def snapshotTimestamp (nowMs : Nat) : Nat :=
  let currentTimeInSeconds := nowMs / 1000
  currentTimeInSeconds / SYNC_THRESHOLD_IN_SECONDS * SYNC_THRESHOLD_IN_SECONDS

/-- syncEngine.ts lines 195-199.  getSnapshot is the MerkleTrie snapshot
function (outside src/).  The JS float division by 10 is exact here because
snapshotTimestamp is a multiple of 10, so Nat division composed with toString
renders the same decimal string. -/
def snapshot (getSnapshot : String → TrieSnapshot) (nowMs : Nat) : TrieSnapshot :=
  getSnapshot (toString (snapshotTimestamp nowMs / 10))

/-- The mutable state of the SyncEngine object: the is_syncing guard
(syncEngine.ts line 28) together with the rest of the process state the sync
pipeline can touch (trie and storage), kept abstract as a payload type. -/
structure EngineState (α : Type) where
  isSyncing : Bool
  rest : α
  deriving Repr, DecidableEq

/-- syncEngine.ts lines 82-100.  The body argument stands for the pipeline of
lines 85-94 (snapshot, divergence walk, fetchMissingHashesByPrefix,
fetchAndMergeMessages): it maps the state it starts from to its final state
and an optional raised error (a rejected await).  performSync runs the body
with is_syncing set, logs and swallows any raised error, clears is_syncing in
the finally block, and returns to its caller without a result; the second
component is what the caller receives. -/
def performSync {α : Type} (st : EngineState α)
    (body : EngineState α → EngineState α × Option HubError) :
    EngineState α × Except HubError Unit :=
  let started : EngineState α := { st with isSyncing := true }
  let ran := body started
  ({ ran.1 with isSyncing := false }, .ok ())

mutual

/-- syncEngine.ts lines 102-116: look up the local metadata for the path, ask
the peer for its metadata there (on error, log and return nothing), and
delegate to fetchMissingHashesByNode.  Returns the missing sync ids together
with the trace of RPC requests issued.  The fuel argument bounds the recursion
depth, which in the source is bounded by the trie depth; fuel 0 yields the
empty result. -/
def fetchMissingHashesByPrefix :
    Nat → String → (String → Option NodeMetadata) → RPCClient → List String × List RpcCall
  | 0, _, _, _ => ([], [])
  | fuel + 1, pfx, trie, rpc =>
    let ourNode := trie pfx
    match rpc.getSyncMetadataByPrefix pfx with
    | .ok theirNode =>
      let rec' := fetchMissingHashesByNode fuel theirNode ourNode trie rpc
      (rec'.1, RpcCall.syncMetadataByPrefix pfx :: rec'.2)
    | .error _ => ([], [RpcCall.syncMetadataByPrefix pfx])
termination_by fuel _ _ _ => (fuel, 0, 0)

/-- syncEngine.ts lines 118-145: when the peer's node holds at most
HASHES_PER_FETCH messages, fetch all its sync ids in one request (on error,
log and return nothing); otherwise walk the peer's children and recurse into
every child whose hash the local trie does not match. -/
def fetchMissingHashesByNode :
    Nat → NodeMetadata → Option NodeMetadata → (String → Option NodeMetadata) → RPCClient →
      List String × List RpcCall
  | fuel, theirNode, ourNode, trie, rpc =>
    if theirNode.numMessages ≤ HASHES_PER_FETCH then
      match rpc.getSyncIdsByPrefix theirNode.pfx with
      | .ok ids => (ids, [RpcCall.syncIdsByPrefix theirNode.pfx])
      | .error _ => ([], [RpcCall.syncIdsByPrefix theirNode.pfx])
    else
      match theirNode.children with
      | some cs => fetchMissingChildren fuel cs ourNode trie rpc
      | none => ([], [])
termination_by fuel _ _ _ _ => (fuel, 2, 0)

/-- The child loop of syncEngine.ts lines 137-142, one entry at a time in map
order, accumulating results left to right. -/
def fetchMissingChildren :
    Nat → List (Char × NodeMetadata) → Option NodeMetadata → (String → Option NodeMetadata) →
      RPCClient → List String × List RpcCall
  | _, [], _, _, _ => ([], [])
  | fuel, entry :: rest, ourNode, trie, rpc =>
    let head : List String × List RpcCall :=
      if ourChildHash ourNode entry.1 ≠ some entry.2.hash then
        fetchMissingHashesByPrefix fuel entry.2.pfx trie rpc
      else
        ([], [])
    let tail := fetchMissingChildren fuel rest ourNode trie rpc
    (head.1 ++ tail.1, head.2 ++ tail.2)
termination_by fuel cs _ _ _ => (fuel, 1, cs.length)

end

/-- syncEngine.ts lines 212-234: the dependency-recovery routine.  Returns the
result handed back to the merge loop, the storage state after its merges, and
the trace of requests and merges it performed.  The merge result of the
custody event (line 218) is not inspected, matching the source. -/
def syncUserAndRetryMessage {σ : Type} (message : Message) (rpc : RPCClient)
    (storage : StorageModel σ) (st : σ) :
    Except HubError Unit × σ × List EngineAction :=
  let fid := message.data.fid
  match rpc.getCustodyEventByUser fid with
  | .error _ =>
    (.error (mkHubError "unavailable.network_failure" "Failed to fetch custody event"),
      st, [.rpcCall (.custodyEventByUser fid)])
  | .ok custodyEvent =>
    let merged1 := storage.mergeIdRegistryEvent custodyEvent "SyncEngine" st
    let acts1 : List EngineAction :=
      [.rpcCall (.custodyEventByUser fid), .mergeIdRegistryEvent custodyEvent "SyncEngine"]
    match rpc.getAllSignerMessagesByUser fid with
    | .error _ =>
      (.error (mkHubError "unavailable.network_failure" "Failed to fetch signer messages"),
        merged1.2, acts1 ++ [.rpcCall (.allSignerMessagesByUser fid)])
    | .ok signerMessages =>
      let merged2 := storage.mergeMessages signerMessages "SyncEngine" merged1.2
      let acts2 := acts1 ++
        [.rpcCall (.allSignerMessagesByUser fid), .mergeMessages signerMessages "SyncEngine"]
      if merged2.1.all isErr then
        (.error (mkHubError "unavailable.storage_failure" "Failed to merge signer messages"),
          merged2.2, acts2)
      else
        let merged3 := storage.mergeMessage message "SyncEngine" merged2.2
        (merged3.1.mapError (fun e => mkHubError "unavailable.storage_failure" e.message),
          merged3.2, acts2 ++ [.mergeMessage message "SyncEngine"])

/-- The check at syncEngine.ts line 161:
result.isErr() && result.error.statusCode === 412. -/
def errIs412 : Except HubError Unit → Bool
  | .error e => e.statusCode == 412
  | .ok _ => false

/-- The sequential merge loop of syncEngine.ts lines 155-168: merge each
fetched message in order, divert to syncUserAndRetryMessage when a merge fails
with the unknown-user status 412, and collect the per-message results. -/
def mergeFetchedMessages {σ : Type} (rpc : RPCClient) (storage : StorageModel σ) :
    List Message → σ → List (Except HubError Unit) × σ × List EngineAction
  | [], st => ([], st, [])
  | msg :: rest, st =>
    let merged := storage.mergeMessage msg "SyncEngine" st
    if errIs412 merged.1 then
      let recovery := syncUserAndRetryMessage msg rpc storage merged.2
      let tail := mergeFetchedMessages rpc storage rest recovery.2.1
      (recovery.1 :: tail.1, tail.2.1,
        .mergeMessage msg "SyncEngine" :: .syncUserRetry msg :: (recovery.2.2 ++ tail.2.2))
    else
      let tail := mergeFetchedMessages rpc storage rest merged.2
      (merged.1 :: tail.1, tail.2.1, .mergeMessage msg "SyncEngine" :: tail.2.2)

/-- syncEngine.ts lines 147-181: with an empty batch return false before any
request; otherwise fetch the messages by their 0x-prefixed hashes and run the
sequential merge loop, returning false exactly when the fetch itself
failed. -/
def fetchAndMergeMessages {σ : Type} (hashes : List String) (rpc : RPCClient)
    (storage : StorageModel σ) (st : σ) : Bool × σ × List EngineAction :=
  if hashes.length = 0 then
    (false, st, [])
  else
    let prefixed := hashes.map (fun h => "0x" ++ h)
    match rpc.getMessagesByHashes prefixed with
    | .ok msgs =>
      let loop := mergeFetchedMessages rpc storage msgs st
      (true, loop.2.1, .rpcCall (.messagesByHashes prefixed) :: loop.2.2)
    | .error _ => (false, st, [.rpcCall (.messagesByHashes prefixed)])

/-- The merge-phase behaviour claim C4 describes, written from the claim's
words rather than from the loop in the source: the fetched messages are merged
strictly sequentially in list order through storage.mergeMessage with source
SyncEngine, and exactly for a message whose merge fails with status code 412
the engine invokes syncUserAndRetryMessage on it, whose actions and storage
effects complete before the next message is taken up.  Yields the described
action trace and the final storage state. -/
def claimedMergeTrace {σ : Type} (rpc : RPCClient) (storage : StorageModel σ) :
    List Message → σ → List EngineAction × σ
  | [], st => ([], st)
  | msg :: rest, st =>
    let merged := storage.mergeMessage msg "SyncEngine" st
    match merged.1 with
    | .error e =>
      if e.statusCode = 412 then
        let recovery := syncUserAndRetryMessage msg rpc storage merged.2
        let tail := claimedMergeTrace rpc storage rest recovery.2.1
        (EngineAction.mergeMessage msg "SyncEngine" :: EngineAction.syncUserRetry msg ::
            (recovery.2.2 ++ tail.1), tail.2)
      else
        let tail := claimedMergeTrace rpc storage rest merged.2
        (EngineAction.mergeMessage msg "SyncEngine" :: tail.1, tail.2)
    | .ok _ =>
      let tail := claimedMergeTrace rpc storage rest merged.2
      (EngineAction.mergeMessage msg "SyncEngine" :: tail.1, tail.2)

/-! Concrete fixtures used by the witness theorems. -/

/-- A peer node holding three messages, below the HASHES_PER_FETCH bound. -/
def exNodeSmall : NodeMetadata := .mk "ab" 3 "h3" none

/-- A local trie with no metadata anywhere. -/
def exTrieEmpty : String → Option NodeMetadata := fun _ => none

/-- A sample message. -/
def exMessage : Message := ⟨⟨7, 20⟩, "aa"⟩

/-- An oracle whose sync-id query answers with one id derived from the path
and whose custody query fails. -/
def exRpc : RPCClient :=
  ⟨fun p => .ok (.mk p 1 "h" none),
   fun p => .ok [p ++ "1"],
   fun _ => .ok [exMessage],
   fun _ => .error (mkHubError "unavailable.network_failure" "down"),
   fun _ => .ok []⟩

/-- A storage model over a Nat counter on which every merge succeeds. -/
def exStorage : StorageModel Nat :=
  ⟨fun _ _ n => (.ok (), n + 1),
   fun ms _ n => (ms.map (fun _ => .ok ()), n + ms.length),
   fun _ _ n => (.ok (), n + 1)⟩

/-! ## Gossip wire format (src/unnamed/part_001) -/

/-- Modelled from the spec: the runtime value universe for the gossip wire
format (spec section 6: JSON-encoded UTF-8 byte arrays).  JSON.parse and
JSON.stringify live in the platform, outside src/.  Numbers are modelled as
nonnegative integers, covering every numeric field the gossip payload carries
(ports, counts, fids, timestamps). -/
inductive Jv where
  | jnull
  | jbool (b : Bool)
  | jnum (n : Nat)
  | jstr (s : String)
  | jarr (elements : List Jv)
  | jobj (fields : List (String × Jv))
  deriving Repr

/-- The decimal digit character of a value below ten. -/
def digitChar : Nat → Char
  | 0 => '0'
  | 1 => '1'
  | 2 => '2'
  | 3 => '3'
  | 4 => '4'
  | 5 => '5'
  | 6 => '6'
  | 7 => '7'
  | 8 => '8'
  | _ => '9'

/-- Decimal digit test. -/
def isDigitChar (c : Char) : Bool := decide (48 ≤ c.toNat ∧ c.toNat ≤ 57)

/-- The value of a list of decimal digit characters, most significant
first. -/
def digitsVal (ds : List Char) : Nat :=
  ds.foldl (fun acc c => acc * 10 + (c.toNat - 48)) 0

/-- The decimal digit characters of a number, most significant first, as
JSON.stringify renders a nonnegative integer. -/
def natChars (n : Nat) : List Char :=
  if n < 10 then [digitChar n] else natChars (n / 10) ++ [digitChar (n % 10)]
termination_by n
decreasing_by omega

/-- JSON string-body escaping: quote and backslash are preceded by a
backslash, everything else passes through. -/
def escapeChars : List Char → List Char
  | [] => []
  | c :: rest => (if c = '"' ∨ c = '\\' then ['\\', c] else [c]) ++ escapeChars rest

/-- A parse failure of the modelled JSON layer.  Modelled from the spec: the
safe JSON helpers (utils/safe.ts, outside src/) fail with the hub's
bad_request.parse_failure code, the spec's bad_input kind. -/
def jsonParseError : HubError := mkHubError "bad_request.parse_failure" "json parse failure"

/-- Parse a JSON string body after its opening quote: an unescaped quote
closes the string, a backslash makes the next character literal. -/
def parseStrBody (acc : List Char) : List Char → Except HubError (String × List Char)
  | [] => .error jsonParseError
  | c :: rest =>
    if c = '"' then
      .ok (String.mk acc.reverse, rest)
    else if c = '\\' then
      match rest with
      | [] => .error jsonParseError
      | e :: rest2 => parseStrBody (e :: acc) rest2
    else
      parseStrBody (c :: acc) rest

mutual

/-- Render a modelled JSON value the way JSON.stringify does: no whitespace,
fields in order, strings escaped. -/
def printJv : Jv → List Char
  | .jnull => ['n', 'u', 'l', 'l']
  | .jbool true => ['t', 'r', 'u', 'e']
  | .jbool false => ['f', 'a', 'l', 's', 'e']
  | .jnum n => natChars n
  | .jstr s => '"' :: (escapeChars s.data ++ ['"'])
  | .jarr elements => '[' :: (printJvItems elements ++ [']'])
  | .jobj fields => '\x7b' :: (printJvFields fields ++ ['\x7d'])

/-- Comma-separated renderings of array elements. -/
def printJvItems : List Jv → List Char
  | [] => []
  | [v] => printJv v
  | v :: w :: rest => printJv v ++ ',' :: printJvItems (w :: rest)

/-- Comma-separated renderings of object fields, each a quoted key, a colon
and the value. -/
def printJvFields : List (String × Jv) → List Char
  | [] => []
  | [(k, v)] => '"' :: (escapeChars k.data ++ '"' :: ':' :: printJv v)
  | (k, v) :: f :: rest =>
    ('"' :: (escapeChars k.data ++ '"' :: ':' :: printJv v)) ++ ',' :: printJvFields (f :: rest)

end

/-- Does the input start with the given character? -/
def headIs (c : Char) : List Char → Bool
  | [] => false
  | d :: _ => d = c

/-- Finish parsing a literal keyword (null, true, false) whose first character
was already consumed: the remaining keyword characters must follow. -/
def parseLiteral (kw : List Char) (v : Jv) (rest : List Char) :
    Except HubError (Jv × List Char) :=
  if rest.take kw.length = kw then .ok (v, rest.drop kw.length) else .error jsonParseError

mutual

/-- Recursive-descent JSON parsing on fuel (each nested call spends one unit,
so any fuel beyond the input length suffices for rendered values).  Accepts
exactly the whitespace-free grammar printJv produces, and fails with the
modelled parse error elsewhere. -/
def parseJv : Nat → List Char → Except HubError (Jv × List Char)
  | 0, _ => .error jsonParseError
  | fuel + 1, input =>
    match input with
    | [] => .error jsonParseError
    | c :: rest =>
      if c = 'n' then
        parseLiteral ['u', 'l', 'l'] Jv.jnull rest
      else if c = 't' then
        parseLiteral ['r', 'u', 'e'] (Jv.jbool true) rest
      else if c = 'f' then
        parseLiteral ['a', 'l', 's', 'e'] (Jv.jbool false) rest
      else if c = '"' then
        (parseStrBody [] rest).bind fun sr => .ok (.jstr sr.1, sr.2)
      else if c = '[' then
        if headIs ']' rest then
          .ok (.jarr [], rest.tail)
        else
          (parseJvItems fuel rest).bind fun vsr => .ok (.jarr vsr.1, vsr.2)
      else if c = '\x7b' then
        if headIs '\x7d' rest then
          .ok (.jobj [], rest.tail)
        else
          (parseJvFields fuel rest).bind fun fsr => .ok (.jobj fsr.1, fsr.2)
      else if isDigitChar c then
        .ok (.jnum (digitsVal ((c :: rest).takeWhile isDigitChar)),
          (c :: rest).dropWhile isDigitChar)
      else
        .error jsonParseError

/-- One or more comma-separated values, ending at the closing bracket. -/
def parseJvItems : Nat → List Char → Except HubError (List Jv × List Char)
  | 0, _ => .error jsonParseError
  | fuel + 1, input =>
    (parseJv fuel input).bind fun vr =>
      if headIs ',' vr.2 then
        (parseJvItems fuel vr.2.tail).bind fun vsr => .ok (vr.1 :: vsr.1, vsr.2)
      else if headIs ']' vr.2 then
        .ok ([vr.1], vr.2.tail)
      else
        .error jsonParseError

/-- One or more comma-separated key-value fields, ending at the closing
brace. -/
def parseJvFields : Nat → List Char → Except HubError (List (String × Jv) × List Char)
  | 0, _ => .error jsonParseError
  | fuel + 1, input =>
    match input with
    | [] => .error jsonParseError
    | c :: rest =>
      if c = '"' then
        (parseStrBody [] rest).bind fun keyr =>
          if headIs ':' keyr.2 then
            (parseJv fuel keyr.2.tail).bind fun vr =>
              if headIs ',' vr.2 then
                (parseJvFields fuel vr.2.tail).bind fun fsr =>
                  .ok ((keyr.1, vr.1) :: fsr.1, fsr.2)
              else if headIs '\x7d' vr.2 then
                .ok ([(keyr.1, vr.1)], vr.2.tail)
              else
                .error jsonParseError
          else
            .error jsonParseError
      else
        .error jsonParseError

end

/-- Modelled from the spec: safeJsonStringify (utils/safe.ts, outside src/)
wraps JSON.stringify in a result; on the modelled value universe
stringification always succeeds. -/
def safeJsonStringify (v : Jv) : Except HubError String :=
  .ok (String.mk (printJv v))

/-- Modelled from the spec: safeJsonParse (utils/safe.ts, outside src/) wraps
JSON.parse in a result, requiring the whole input to be one JSON value and
failing with a parse error otherwise. -/
def safeJsonParse (s : String) : Except HubError Jv :=
  match parseJv (s.data.length + 1) s.data with
  | .ok (v, []) => .ok v
  | .ok (_, _ :: _) => .error jsonParseError
  | .error e => .error e

/-- Modelled from the spec: the platform TextEncoder, rendering a string as
the array of its code points (an exact inverse pair with textDecode; the
UTF-8 byte details live outside src/). -/
def textEncode (s : String) : List Nat := s.data.map Char.toNat

/-- Modelled from the spec: the platform TextDecoder, inverse to
textEncode. -/
def textDecode (data : List Nat) : String := String.mk (data.map Char.ofNat)

/-- Lookup in a JSON object's field list, first binding wins. -/
def jvLookup (fields : List (String × Jv)) (key : String) : Option Jv :=
  List.lookup key fields

/-- Is the value a JSON string? -/
def isStringJv : Jv → Bool
  | .jstr _ => true
  | _ => false

/-- Modelled from the spec: the content part of the gossip type guard
(typeguards.ts, outside src/).  Spec section 4.6 and 6: the content is either
a message-carrying record (UserContent or IdRegistryContent, a message field
holding an object) or a contact-info record (peerId string, excludedHashes
array of strings, count number). -/
def isContent (c : Jv) : Bool :=
  match c with
  | .jobj fields =>
    (match jvLookup fields "message" with
     | some (.jobj _) => true
     | _ => false)
    ||
    (match jvLookup fields "peerId", jvLookup fields "excludedHashes",
        jvLookup fields "count" with
     | some (.jstr _), some (.jarr hs), some (.jnum _) => hs.all isStringJv
     | _, _, _ => false)
  | _ => false

/-- Modelled from the spec: the isGossipMessage runtime type guard
(typeguards.ts, outside src/).  A gossip envelope is an object with a content
field of one of the content shapes and a topics field holding an array of
strings. -/
def isGossipMessage (v : Jv) : Bool :=
  match v with
  | .jobj fields =>
    (match jvLookup fields "content" with
     | some c => isContent c
     | none => false)
    &&
    (match jvLookup fields "topics" with
     | some (.jarr ts) => ts.all isStringJv
     | _ => false)
  | _ => false

/-- The JS falsiness test applied to a parsed value at part_001 line 101
(!message): null, false, zero and the empty string are falsy. -/
def jsFalsy : Jv → Bool
  | .jnull => true
  | .jbool false => true
  | .jnum 0 => true
  | .jstr "" => true
  | _ => false

/-- src/unnamed/part_001 lines 79-88: refuse a value the gossip guard
rejects, stringify it, and return the encoded bytes. -/
def encodeMessage (message : Jv) : Except HubError (List Nat) :=
  if !(isGossipMessage message) then
    .error (mkHubError "bad_request.parse_failure" "invalid gossip message")
  else
    match safeJsonStringify message with
    | .error e => .error e
    | .ok s => .ok (textEncode s)

/-- src/unnamed/part_001 lines 97-106: decode the bytes, parse them, and
refuse a falsy or guard-rejected result. -/
def decodeMessage (data : List Nat) : Except HubError Jv :=
  let json := textDecode data
  (safeJsonParse json).bind fun message =>
    if jsFalsy message || !(isGossipMessage message) then
      .error (mkHubError "bad_request.parse_failure" "invalid gossip message")
    else
      .ok message

/-- A concrete valid gossip envelope for the witnesses. -/
def exGossip : Jv :=
  .jobj [("content", .jobj [("message", .jobj [("fid", .jnum 7)])]),
    ("topics", .jarr [.jstr "f_network_topic_primary"])]


/-- A remainder that cannot extend a rendered number: empty or starting with
a non-digit.  Every delimiter the grammar can put after a value qualifies. -/
def digitDelim : List Char → Bool
  | [] => true
  | c :: _ => !isDigitChar c

/-! ## Supporting lemmas -/

/-- Shifting the JS every index past a consumed head of the compared list. -/
theorem everyMatchesFrom_shift (a : List String) (w : String) (bs : List String) :
    ∀ i, everyMatchesFrom a (w :: bs) (i + 1) = everyMatchesFrom a bs i := by
  induction a with
  | nil => intro i; rfl
  | cons v rest ih =>
    intro i
    simp only [everyMatchesFrom, List.get?_cons_succ, ih (i + 1)]

/-- The length check conjoined with the indexed element check of
syncEngine.ts lines 74-76 holds exactly on equal lists. -/
theorem excludedMatch_iff (a : List String) :
    ∀ b : List String,
      (((a.length == b.length) && everyMatchesFrom a b 0) = true) ↔ a = b := by
  induction a with
  | nil =>
    intro b
    cases b <;> simp [everyMatchesFrom]
  | cons v rest ih =>
    intro b
    cases b with
    | nil => simp [everyMatchesFrom]
    | cons w bs =>
      have ih' := ih bs
      simp only [Bool.and_eq_true, beq_iff_eq] at ih'
      simp only [List.length_cons, everyMatchesFrom, List.get?_cons_zero,
        everyMatchesFrom_shift, Bool.and_eq_true, beq_iff_eq, Option.some.injEq,
        Nat.add_right_cancel_iff, List.cons.injEq]
      constructor
      · rintro ⟨h1, h2, h3⟩
        exact ⟨h2, ih'.mp ⟨h1, h3⟩⟩
      · rintro ⟨h1, h2⟩
        obtain ⟨h3, h4⟩ := ih'.mpr h2
        exact ⟨h3, h1, h4⟩

/-- C2: shouldSync returns false whenever is_syncing is set, and otherwise
returns true if and only if the local snapshot's excludedHashes list differs
from the peer's list element-wise, differing lengths included. -/
theorem shouldSync_correct (snap : TrieSnapshot) (theirs : List String) :
    shouldSync true snap theirs = false ∧
      (shouldSync false snap theirs = true ↔ snap.excludedHashes ≠ theirs) := by
  refine ⟨rfl, ?_⟩
  have h := excludedMatch_iff snap.excludedHashes theirs
  show (!((snap.excludedHashes.length == theirs.length) &&
      everyMatchesFrom snap.excludedHashes theirs 0)) = true ↔ _
  rw [Bool.not_eq_true', ← Bool.not_eq_true]
  exact not_congr h

/-- C3: performSync keeps is_syncing set for its whole duration (its outcome
depends only on the body's behaviour on states with the flag set), clears the
flag on every exit path, and never hands an error back to its caller: errors
raised inside the pipeline are logged and swallowed. -/
theorem performSync_correct {α : Type} (st : EngineState α)
    (body body' : EngineState α → EngineState α × Option HubError)
    (hagree : ∀ s, s.isSyncing = true → body s = body' s) :
    (performSync st body).2 = Except.ok () ∧
      (performSync st body).1.isSyncing = false ∧
      performSync st body = performSync st body' := by
  refine ⟨rfl, rfl, ?_⟩
  have h := hagree { st with isSyncing := true } rfl
  simp only [performSync, h]

/-- C3 witness: the theorem applied at a concrete state and a pair of bodies
that agree on flagged states, evaluated. -/
theorem performSync_correct_witness :
    (performSync (⟨false, 0⟩ : EngineState Nat)
        (fun s => (⟨true, s.rest + 1⟩, none))).2 = Except.ok () ∧
      (performSync (⟨false, 0⟩ : EngineState Nat)
        (fun s => (⟨true, s.rest + 1⟩, none))).1.isSyncing = false ∧
      performSync (⟨false, 0⟩ : EngineState Nat) (fun s => (⟨true, s.rest + 1⟩, none)) =
        performSync (⟨false, 0⟩ : EngineState Nat)
          (fun s => ({ s with rest := s.rest + 1 }, none)) :=
  performSync_correct ⟨false, 0⟩ (fun s => (⟨true, s.rest + 1⟩, none))
    (fun s => ({ s with rest := s.rest + 1 }, none))
    (fun s hs => by cases s; simp_all)

/-- C6: snapshotTimestamp is the current UNIX time in seconds floored to the
nearest multiple of SYNC_THRESHOLD_IN_SECONDS = 10, that is
floor(floor(nowMs / 1000) / 10) * 10: a multiple of 10 that is at most the
current second count and within 10 of it; and snapshot asks the trie for the
snapshot at the decimal rendering of snapshotTimestamp divided by 10. -/
theorem snapshotTimestamp_correct (nowMs : Nat) (getSnapshot : String → TrieSnapshot) :
    snapshotTimestamp nowMs = nowMs / 1000 / 10 * 10 ∧
      snapshotTimestamp nowMs % 10 = 0 ∧
      snapshotTimestamp nowMs ≤ nowMs / 1000 ∧
      nowMs / 1000 < snapshotTimestamp nowMs + 10 ∧
      snapshot getSnapshot nowMs = getSnapshot (toString (snapshotTimestamp nowMs / 10)) := by
  refine ⟨rfl, ?_, ?_, ?_, rfl⟩
  · simp only [snapshotTimestamp, SYNC_THRESHOLD_IN_SECONDS]
    omega
  · simp only [snapshotTimestamp, SYNC_THRESHOLD_IN_SECONDS]
    omega
  · simp only [snapshotTimestamp, SYNC_THRESHOLD_IN_SECONDS]
    omega

/-- C7: with an empty hash list, fetchAndMergeMessages returns false, leaves
storage untouched and issues no request at all. -/
theorem fetchAndMergeMessages_empty {σ : Type} (rpc : RPCClient)
    (storage : StorageModel σ) (st : σ) :
    fetchAndMergeMessages [] rpc storage st = (false, st, []) := rfl

/-- C9: the boolean fetchAndMergeMessages returns records only that the batch
was non-empty and that the fetch RPC succeeded; merge failures (including
failed dependency recovery) leave it true. -/
theorem fetchAndMergeMessages_bool {σ : Type} (hashes : List String) (rpc : RPCClient)
    (storage : StorageModel σ) (st : σ) :
    (fetchAndMergeMessages hashes rpc storage st).1 =
      (!hashes.isEmpty &&
        !isErr (rpc.getMessagesByHashes (hashes.map (fun h => "0x" ++ h)))) := by
  cases hashes with
  | nil => rfl
  | cons h t =>
    simp only [fetchAndMergeMessages, List.length_cons, List.isEmpty_cons]
    rw [if_neg (by omega)]
    cases hres : rpc.getMessagesByHashes ((h :: t).map (fun x => "0x" ++ x)) <;>
      simp [hres, isErr]

/-- The child loop accumulates exactly the recursive results of the children
whose hash the local trie does not match, in order, both for ids and for the
request trace. -/
theorem fetchMissingChildren_eq (fuel : Nat) (cs : List (Char × NodeMetadata))
    (ourNode : Option NodeMetadata) (trie : String → Option NodeMetadata) (rpc : RPCClient) :
    fetchMissingChildren fuel cs ourNode trie rpc =
      ((cs.filter fun e => decide (ourChildHash ourNode e.1 ≠ some e.2.hash)).flatMap
          (fun e => (fetchMissingHashesByPrefix fuel e.2.pfx trie rpc).1),
        (cs.filter fun e => decide (ourChildHash ourNode e.1 ≠ some e.2.hash)).flatMap
          (fun e => (fetchMissingHashesByPrefix fuel e.2.pfx trie rpc).2)) := by
  induction cs with
  | nil => simp [fetchMissingChildren]
  | cons entry rest ih =>
    by_cases hm : ourChildHash ourNode entry.1 ≠ some entry.2.hash
    · simp [fetchMissingChildren, ih, hm, List.filter_cons, List.flatMap_cons]
    · simp [fetchMissingChildren, ih, hm, List.filter_cons, List.flatMap_cons]

/-- C1: when the peer's node holds at most HASHES_PER_FETCH = 50 messages,
fetchMissingHashesByNode issues exactly one get_sync_ids_by_prefix request for
that node's path and returns whatever ids it yields, touching no child;
otherwise it recurses through fetchMissingHashesByPrefix exactly into those
children of the peer's node whose hash the local trie lacks or contradicts,
and concatenates their results (and request traces) in child order. -/
theorem fetchMissingHashesByNode_correct (fuel : Nat) (theirNode : NodeMetadata)
    (ourNode : Option NodeMetadata) (trie : String → Option NodeMetadata) (rpc : RPCClient) :
    (theirNode.numMessages ≤ HASHES_PER_FETCH →
      fetchMissingHashesByNode fuel theirNode ourNode trie rpc =
        ((match rpc.getSyncIdsByPrefix theirNode.pfx with
          | .ok ids => ids
          | .error _ => []),
          [RpcCall.syncIdsByPrefix theirNode.pfx]))
    ∧ (HASHES_PER_FETCH < theirNode.numMessages →
      fetchMissingHashesByNode fuel theirNode ourNode trie rpc =
        (((theirNode.children.getD []).filter
            fun e => decide (ourChildHash ourNode e.1 ≠ some e.2.hash)).flatMap
            (fun e => (fetchMissingHashesByPrefix fuel e.2.pfx trie rpc).1),
          ((theirNode.children.getD []).filter
            fun e => decide (ourChildHash ourNode e.1 ≠ some e.2.hash)).flatMap
            (fun e => (fetchMissingHashesByPrefix fuel e.2.pfx trie rpc).2))) := by
  constructor
  · intro hle
    rw [fetchMissingHashesByNode, if_pos hle]
    cases hids : rpc.getSyncIdsByPrefix theirNode.pfx <;> simp [hids]
  · intro hgt
    rw [fetchMissingHashesByNode, if_neg (by omega)]
    cases hch : theirNode.children with
    | none => simp
    | some cs => simp [fetchMissingChildren_eq]

/-- C1 witness: the theorem applied to the small fixture node, with the single
request and its ids evaluated. -/
theorem fetchMissingHashesByNode_correct_witness :
    exNodeSmall.numMessages ≤ HASHES_PER_FETCH ∧
      fetchMissingHashesByNode 1 exNodeSmall none exTrieEmpty exRpc =
        (["ab1"], [RpcCall.syncIdsByPrefix "ab"]) := by
  refine ⟨by decide, ?_⟩
  rw [(fetchMissingHashesByNode_correct 1 exNodeSmall none exTrieEmpty exRpc).1 (by decide)]
  rfl

/-- The merge loop of the implementation produces exactly the claim-side
sequential trace and final storage state. -/
theorem mergeFetchedMessages_agrees {σ : Type} (rpc : RPCClient) (storage : StorageModel σ) :
    ∀ (msgs : List Message) (st : σ),
      (mergeFetchedMessages rpc storage msgs st).2.2 = (claimedMergeTrace rpc storage msgs st).1 ∧
        (mergeFetchedMessages rpc storage msgs st).2.1 = (claimedMergeTrace rpc storage msgs st).2 := by
  intro msgs
  induction msgs with
  | nil => intro st; exact ⟨rfl, rfl⟩
  | cons msg rest ih =>
    intro st
    rcases hmm : storage.mergeMessage msg "SyncEngine" st with ⟨r, st2⟩
    cases r with
    | ok u =>
      have h := ih st2
      simp [mergeFetchedMessages, claimedMergeTrace, hmm, errIs412, h.1, h.2]
    | error e =>
      by_cases h412 : e.statusCode = 412
      · have h := ih (syncUserAndRetryMessage msg rpc storage st2).2.1
        simp [mergeFetchedMessages, claimedMergeTrace, hmm, errIs412, h412, h.1, h.2]
      · have h := ih st2
        simp [mergeFetchedMessages, claimedMergeTrace, hmm, errIs412, h412, h.1, h.2]

/-- C4: on a non-empty batch whose fetch succeeds, fetchAndMergeMessages asks
the peer for the messages under the 0x-prefixed hashes and then performs the
claim's sequential merge discipline: each returned message is merged in list
order through storage.mergeMessage with source SyncEngine, and exactly the
merges failing with status 412 divert to syncUserAndRetryMessage before the
next message is processed. -/
theorem fetchAndMergeMessages_correct {σ : Type} (hashes : List String) (rpc : RPCClient)
    (storage : StorageModel σ) (st : σ) (msgs : List Message)
    (hne : hashes ≠ [])
    (hfetch : rpc.getMessagesByHashes (hashes.map (fun h => "0x" ++ h)) = .ok msgs) :
    fetchAndMergeMessages hashes rpc storage st =
      (true, (claimedMergeTrace rpc storage msgs st).2,
        EngineAction.rpcCall (RpcCall.messagesByHashes (hashes.map (fun h => "0x" ++ h))) ::
          (claimedMergeTrace rpc storage msgs st).1) := by
  obtain ⟨h1, h2⟩ := mergeFetchedMessages_agrees rpc storage msgs st
  unfold fetchAndMergeMessages
  rw [if_neg (by simp [List.length_eq_zero, hne])]
  simp only [hfetch, h1, h2]

/-- An oracle for the recovery fixtures: fetches succeed, the custody query
answers, and there is one signer message. -/
def exRpcOk : RPCClient :=
  ⟨fun p => .ok (.mk p 1 "h" none),
   fun p => .ok [p ++ "1"],
   fun _ => .ok [exMessage],
   fun fid => .ok ⟨fid⟩,
   fun _ => .ok [exMessage]⟩

/-- C4 witness: the theorem applied to a singleton batch against the counting
storage, fully evaluated. -/
theorem fetchAndMergeMessages_correct_witness :
    fetchAndMergeMessages ["aa"] exRpcOk exStorage 0 =
      (true, 1, [EngineAction.rpcCall (RpcCall.messagesByHashes ["0xaa"]),
        EngineAction.mergeMessage exMessage "SyncEngine"]) := by
  rw [fetchAndMergeMessages_correct ["aa"] exRpcOk exStorage 0 [exMessage]
    (by decide) rfl]
  rfl

/-- C5: syncUserAndRetryMessage yields unavailable.network_failure exactly on
the two fetch failures (custody event, signer messages); with both fetches
succeeding it yields unavailable.storage_failure when every signer merge
failed, and otherwise hands back the retried merge of the original message
with any error of the retry re-tagged unavailable.storage_failure. -/
theorem syncUserAndRetryMessage_correct {σ : Type} (m : Message) (rpc : RPCClient)
    (storage : StorageModel σ) (st : σ) :
    (isErr (rpc.getCustodyEventByUser m.data.fid) = true →
      (syncUserAndRetryMessage m rpc storage st).1 =
        .error (mkHubError "unavailable.network_failure" "Failed to fetch custody event"))
    ∧ (∀ c, rpc.getCustodyEventByUser m.data.fid = .ok c →
      isErr (rpc.getAllSignerMessagesByUser m.data.fid) = true →
      (syncUserAndRetryMessage m rpc storage st).1 =
        .error (mkHubError "unavailable.network_failure" "Failed to fetch signer messages"))
    ∧ (∀ c signers, rpc.getCustodyEventByUser m.data.fid = .ok c →
      rpc.getAllSignerMessagesByUser m.data.fid = .ok signers →
      ((storage.mergeMessages signers "SyncEngine"
          (storage.mergeIdRegistryEvent c "SyncEngine" st).2).1.all isErr = true →
        (syncUserAndRetryMessage m rpc storage st).1 =
          .error (mkHubError "unavailable.storage_failure" "Failed to merge signer messages"))
      ∧ ((storage.mergeMessages signers "SyncEngine"
          (storage.mergeIdRegistryEvent c "SyncEngine" st).2).1.all isErr = false →
        (syncUserAndRetryMessage m rpc storage st).1 =
          ((storage.mergeMessage m "SyncEngine"
            (storage.mergeMessages signers "SyncEngine"
              (storage.mergeIdRegistryEvent c "SyncEngine" st).2).2).1).mapError
            (fun e => mkHubError "unavailable.storage_failure" e.message))) := by
  refine ⟨?_, ?_, ?_⟩
  · intro herr
    cases hc : rpc.getCustodyEventByUser m.data.fid with
    | ok c => rw [hc] at herr; simp [isErr] at herr
    | error e => simp [syncUserAndRetryMessage, hc]
  · intro c hc herr
    cases hs : rpc.getAllSignerMessagesByUser m.data.fid with
    | ok s => rw [hs] at herr; simp [isErr] at herr
    | error e => simp [syncUserAndRetryMessage, hc, hs]
  · intro c signers hc hs
    constructor
    · intro hall
      simp [syncUserAndRetryMessage, hc, hs, hall]
    · intro hnotall
      simp [syncUserAndRetryMessage, hc, hs, hnotall]

/-- C5 witness: the custody fetch of the failing oracle makes the routine
return the network-failure error, evaluated. -/
theorem syncUserAndRetryMessage_correct_witness :
    isErr (exRpc.getCustodyEventByUser exMessage.data.fid) = true ∧
      (syncUserAndRetryMessage exMessage exRpc exStorage 0).1 =
        .error (mkHubError "unavailable.network_failure" "Failed to fetch custody event") :=
  ⟨rfl, (syncUserAndRetryMessage_correct exMessage exRpc exStorage 0).1 rfl⟩

/-! ## Lemmas on the JSON rendering -/

/-- Every digit character the renderer produces passes the digit test. -/
theorem digitChar_is_digit (d : Nat) : isDigitChar (digitChar d) = true := by
  unfold digitChar
  split <;> rfl

/-- Below ten, the digit character carries its value. -/
theorem digitChar_val (d : Nat) (h : d < 10) : (digitChar d).toNat - 48 = d := by
  interval_cases d <;> rfl

/-- A rendered number is never empty. -/
theorem natChars_ne_nil (n : Nat) : natChars n ≠ [] := by
  rw [natChars]
  split <;> simp

/-- A rendered number consists of digit characters. -/
theorem natChars_all_digits (n : Nat) : ∀ c ∈ natChars n, isDigitChar c = true := by
  induction n using Nat.strong_induction_on with
  | _ n ih =>
    rw [natChars]
    split
    · intro c hc
      rw [List.mem_singleton] at hc
      subst hc
      exact digitChar_is_digit n
    · intro c hc
      rcases List.mem_append.mp hc with h | h
      · exact ih (n / 10) (by omega) c h
      · rw [List.mem_singleton] at h
        subst h
        exact digitChar_is_digit (n % 10)

/-- A rendered number starts with a digit character. -/
theorem natChars_cons (n : Nat) : ∃ c t, natChars n = c :: t ∧ isDigitChar c = true := by
  cases h : natChars n with
  | nil => exact absurd h (natChars_ne_nil n)
  | cons c t =>
    exact ⟨c, t, rfl, natChars_all_digits n c (h ▸ List.mem_cons_self c t)⟩

/-- Reading the rendered digits back recovers the number. -/
theorem digitsVal_natChars (n : Nat) : digitsVal (natChars n) = n := by
  induction n using Nat.strong_induction_on with
  | _ n ih =>
    rw [natChars]
    split
    · rename_i h
      simp only [digitsVal, List.foldl_cons, List.foldl_nil, Nat.zero_mul, Nat.zero_add]
      exact digitChar_val n h
    · rename_i h
      have hrec := ih (n / 10) (by omega)
      simp only [digitsVal, List.foldl_append, List.foldl_cons, List.foldl_nil] at hrec ⊢
      rw [hrec, digitChar_val (n % 10) (by omega)]
      omega

/-- takeWhile over an all-true block followed by a delimited remainder keeps
exactly the block. -/
theorem takeWhile_block (p : Char → Bool) (ds : List Char)
    (hds : ∀ c ∈ ds, p c = true) :
    ∀ rest : List Char, (∀ r t, rest = r :: t → p r = false) →
      (ds ++ rest).takeWhile p = ds ∧ (ds ++ rest).dropWhile p = rest := by
  induction ds with
  | nil =>
    intro rest hrest
    cases rest with
    | nil => exact ⟨rfl, rfl⟩
    | cons r t =>
      simp [List.takeWhile_cons, List.dropWhile_cons, hrest r t rfl]
  | cons d ds ih =>
    intro rest hrest
    have hd := hds d (List.mem_cons_self d ds)
    have htail := ih (fun c hc => hds c (List.mem_cons_of_mem d hc)) rest hrest
    simp [List.takeWhile_cons, List.dropWhile_cons, hd, htail.1, htail.2]

/-- Parsing a string body undoes the escaping, stopping at the closing
quote. -/
theorem parseStrBody_escape (s : List Char) :
    ∀ (acc rest : List Char),
      parseStrBody acc (escapeChars s ++ '"' :: rest) =
        .ok (String.mk (acc.reverse ++ s), rest) := by
  induction s with
  | nil =>
    intro acc rest
    show parseStrBody acc ('"' :: rest) = _
    rw [parseStrBody.eq_def]
    simp
  | cons c cs ih =>
    intro acc rest
    by_cases hc : c = '"' ∨ c = '\\'
    · have harg : escapeChars (c :: cs) ++ '"' :: rest =
          '\\' :: c :: (escapeChars cs ++ '"' :: rest) := by
        simp [escapeChars, if_pos hc]
      rw [harg]
      have hstep : parseStrBody acc ('\\' :: c :: (escapeChars cs ++ '"' :: rest)) =
          parseStrBody (c :: acc) (escapeChars cs ++ '"' :: rest) := by
        rw [parseStrBody.eq_def]
        rfl
      rw [hstep, ih (c :: acc) rest]
      simp
    · push_neg at hc
      have harg : escapeChars (c :: cs) ++ '"' :: rest =
          c :: (escapeChars cs ++ '"' :: rest) := by
        simp [escapeChars, if_neg (by tauto : ¬(c = '"' ∨ c = '\\'))]
      rw [harg]
      have hstep : parseStrBody acc (c :: (escapeChars cs ++ '"' :: rest)) =
          parseStrBody (c :: acc) (escapeChars cs ++ '"' :: rest) := by
        conv_lhs => rw [parseStrBody.eq_def]
        simp only []
        rw [if_neg hc.1, if_neg hc.2]
      rw [hstep, ih (c :: acc) rest]
      simp

/-- A digit character is none of the grammar's key characters. -/
theorem digit_not_key {c : Char} (h : isDigitChar c = true) :
    c ≠ 'n' ∧ c ≠ 't' ∧ c ≠ 'f' ∧ c ≠ '"' ∧ c ≠ '[' ∧ c ≠ '\x7b' ∧ c ≠ ']' := by
  refine ⟨?_, ?_, ?_, ?_, ?_, ?_, ?_⟩ <;>
    (rintro rfl; exact absurd h (by decide))

/-- Reading the delimiter condition off a non-empty remainder. -/
theorem digitDelim_heads {rest : List Char} (h : digitDelim rest = true) :
    ∀ r t, rest = r :: t → isDigitChar r = false := by
  intro r t hrt
  subst hrt
  simp only [digitDelim, Bool.not_eq_true'] at h
  exact h

/-- Every rendered value is non-empty and starts with a character other than
the closing bracket. -/
theorem printJv_cons (v : Jv) : ∃ c t, printJv v = c :: t ∧ c ≠ ']' := by
  cases v with
  | jnull => exact ⟨'n', ['u', 'l', 'l'], by simp [printJv], by decide⟩
  | jbool b =>
    cases b with
    | true => exact ⟨'t', ['r', 'u', 'e'], by simp [printJv], by decide⟩
    | false => exact ⟨'f', ['a', 'l', 's', 'e'], by simp [printJv], by decide⟩
  | jnum n =>
    obtain ⟨c, t, hct, hcd⟩ := natChars_cons n
    exact ⟨c, t, by simp [printJv, hct], (digit_not_key hcd).2.2.2.2.2.2⟩
  | jstr s => exact ⟨'"', escapeChars s.data ++ ['"'], by simp [printJv], by decide⟩
  | jarr es => exact ⟨'[', printJvItems es ++ [']'], by simp [printJv], by decide⟩
  | jobj fs => exact ⟨'\x7b', printJvFields fs ++ ['\x7d'], by simp [printJv], by decide⟩

/-- A rendered value has at least one character. -/
theorem printJv_length_pos (v : Jv) : 0 < (printJv v).length := by
  obtain ⟨c, t, h, _⟩ := printJv_cons v
  simp [h]

/-- A non-empty rendered element list starts like its first value, hence not
with the closing bracket. -/
theorem printJvItems_head (v : Jv) (vs : List Jv) :
    ∃ c t, printJvItems (v :: vs) = c :: t ∧ c ≠ ']' := by
  obtain ⟨c, t, h, hc⟩ := printJv_cons v
  cases vs with
  | nil => exact ⟨c, t, by simp [printJvItems, h], hc⟩
  | cons w ws =>
    exact ⟨c, t ++ ',' :: printJvItems (w :: ws), by simp [printJvItems, h], hc⟩

/-- A non-empty rendered field list starts with the key's opening quote. -/
theorem printJvFields_head (k : String) (v : Jv) (fs : List (String × Jv)) :
    ∃ t, printJvFields ((k, v) :: fs) = '"' :: t := by
  cases fs with
  | nil => exact ⟨escapeChars k.data ++ '"' :: ':' :: printJv v, by simp [printJvFields]⟩
  | cons f2 fs2 =>
    exact ⟨escapeChars k.data ++ '"' :: ':' :: printJv v ++ ',' :: printJvFields (f2 :: fs2),
      by simp [printJvFields]⟩

/-- String eta: rebuilding a string from its characters is the identity. -/
theorem string_mk_data (s : String) : String.mk s.data = s := rfl

set_option maxHeartbeats 1000000 in
/-- Parsing inverts rendering: with enough fuel (any bound beyond the rendered
length) and a remainder that cannot extend a number, a rendered value parses
back to itself, and likewise for non-empty element and field lists up to their
closing bracket or brace. -/
theorem parse_printJv_all : ∀ fuel : Nat,
    (∀ (v : Jv) (rest : List Char), (printJv v).length < fuel → digitDelim rest = true →
      parseJv fuel (printJv v ++ rest) = .ok (v, rest)) ∧
    (∀ (v : Jv) (vs : List Jv) (rest : List Char),
      (printJvItems (v :: vs)).length + 1 < fuel →
      parseJvItems fuel (printJvItems (v :: vs) ++ ']' :: rest) = .ok (v :: vs, rest)) ∧
    (∀ (k : String) (v : Jv) (fs : List (String × Jv)) (rest : List Char),
      (printJvFields ((k, v) :: fs)).length + 1 < fuel →
      parseJvFields fuel (printJvFields ((k, v) :: fs) ++ '\x7d' :: rest) =
        .ok ((k, v) :: fs, rest)) := by
  intro fuel
  induction fuel with
  | zero =>
    exact ⟨fun v rest h _ => absurd h (Nat.not_lt_zero _),
      fun v vs rest h => absurd h (Nat.not_lt_zero _),
      fun k v fs rest h => absurd h (Nat.not_lt_zero _)⟩
  | succ f ih =>
    obtain ⟨ihP, ihQ, ihR⟩ := ih
    refine ⟨?_, ?_, ?_⟩
    · -- values
      intro v rest hlen hdelim
      cases v with
      | jnull =>
        have h : printJv Jv.jnull ++ rest = 'n' :: 'u' :: 'l' :: 'l' :: rest := by
          simp [printJv]
        rw [h, parseJv.eq_def]
        simp [parseLiteral, List.take, List.drop]
      | jbool b =>
        cases b with
        | true =>
          have h : printJv (Jv.jbool true) ++ rest = 't' :: 'r' :: 'u' :: 'e' :: rest := by
            simp [printJv]
          rw [h, parseJv.eq_def]
          simp [parseLiteral, List.take, List.drop]
        | false =>
          have h : printJv (Jv.jbool false) ++ rest =
              'f' :: 'a' :: 'l' :: 's' :: 'e' :: rest := by
            simp [printJv]
          rw [h, parseJv.eq_def]
          simp [parseLiteral, List.take, List.drop]
      | jnum n =>
        obtain ⟨c, t, hct, hcd⟩ := natChars_cons n
        obtain ⟨hn, ht', hf', hq, hbk, hbc, _⟩ := digit_not_key hcd
        have h : printJv (Jv.jnum n) ++ rest = c :: (t ++ rest) := by
          simp [printJv, hct]
        rw [h, parseJv.eq_def]
        have hb : c :: (t ++ rest) = natChars n ++ rest := by
          simp [hct]
        obtain ⟨htake, hdrop⟩ := takeWhile_block isDigitChar (natChars n)
          (natChars_all_digits n) rest (digitDelim_heads hdelim)
        simp [hn, ht', hf', hq, hbk, hbc, hcd, hb, htake, hdrop, digitsVal_natChars]
      | jstr s =>
        have h : printJv (Jv.jstr s) ++ rest = '"' :: (escapeChars s.data ++ '"' :: rest) := by
          simp [printJv]
        rw [h, parseJv.eq_def]
        simp [parseStrBody_escape s.data [] rest, Except.bind, string_mk_data]
      | jarr es =>
        cases es with
        | nil =>
          have h : printJv (Jv.jarr []) ++ rest = '[' :: (']' :: rest) := by
            simp [printJv, printJvItems]
          rw [h, parseJv.eq_def]
          simp [headIs]
        | cons v vs =>
          obtain ⟨c0, t0, hc0, hc0r⟩ := printJvItems_head v vs
          have h : printJv (Jv.jarr (v :: vs)) ++ rest =
              '[' :: (printJvItems (v :: vs) ++ ']' :: rest) := by
            simp [printJv]
          have hhead : headIs ']' (printJvItems (v :: vs) ++ ']' :: rest) = false := by
            rw [hc0]
            simp [headIs, hc0r]
          have hq' : parseJvItems f (printJvItems (v :: vs) ++ ']' :: rest) =
              .ok (v :: vs, rest) := by
            apply ihQ
            simp only [printJv, List.length_cons, List.length_append] at hlen
            omega
          rw [h, parseJv.eq_def]
          simp [hhead, hq', Except.bind]
      | jobj fs =>
        cases fs with
        | nil =>
          have h : printJv (Jv.jobj []) ++ rest = '\x7b' :: ('\x7d' :: rest) := by
            simp [printJv, printJvFields]
          rw [h, parseJv.eq_def]
          simp [headIs]
        | cons kv fs2 =>
          obtain ⟨k, v⟩ := kv
          obtain ⟨t0, hfh⟩ := printJvFields_head k v fs2
          have h : printJv (Jv.jobj ((k, v) :: fs2)) ++ rest =
              '\x7b' :: (printJvFields ((k, v) :: fs2) ++ '\x7d' :: rest) := by
            simp [printJv]
          have hhead : headIs '\x7d' (printJvFields ((k, v) :: fs2) ++ '\x7d' :: rest) = false := by
            rw [hfh]
            simp [headIs]
          have hr' : parseJvFields f (printJvFields ((k, v) :: fs2) ++ '\x7d' :: rest) =
              .ok ((k, v) :: fs2, rest) := by
            apply ihR
            simp only [printJv, List.length_cons, List.length_append] at hlen
            omega
          rw [h, parseJv.eq_def]
          simp [hhead, hr', Except.bind]
    · -- element lists
      intro v vs rest hlen
      cases vs with
      | nil =>
        have hx : printJvItems [v] ++ ']' :: rest = printJv v ++ ']' :: rest := by
          simp [printJvItems]
        have hv : parseJv f (printJv v ++ ']' :: rest) = .ok (v, ']' :: rest) := by
          apply ihP
          · simp only [printJvItems] at hlen
            omega
          · rfl
        rw [hx, parseJvItems.eq_def]
        simp [hv, Except.bind, headIs]
      | cons w ws =>
        have hx : printJvItems (v :: w :: ws) ++ ']' :: rest =
            printJv v ++ (',' :: (printJvItems (w :: ws) ++ ']' :: rest)) := by
          simp [printJvItems]
        have hv : parseJv f (printJv v ++ (',' :: (printJvItems (w :: ws) ++ ']' :: rest))) =
            .ok (v, ',' :: (printJvItems (w :: ws) ++ ']' :: rest)) := by
          apply ihP
          · simp only [printJvItems, List.length_append, List.length_cons] at hlen
            omega
          · rfl
        have hq' : parseJvItems f (printJvItems (w :: ws) ++ ']' :: rest) =
            .ok (w :: ws, rest) := by
          apply ihQ
          have hvp := printJv_length_pos v
          simp only [printJvItems, List.length_append, List.length_cons] at hlen
          omega
        rw [hx, parseJvItems.eq_def]
        simp [hv, hq', Except.bind, headIs]
    · -- field lists
      intro k v fs rest hlen
      cases fs with
      | nil =>
        have hx : printJvFields [(k, v)] ++ '\x7d' :: rest =
            '"' :: (escapeChars k.data ++ '"' :: (':' :: (printJv v ++ '\x7d' :: rest))) := by
          simp [printJvFields]
        have hstr := parseStrBody_escape k.data [] (':' :: (printJv v ++ '\x7d' :: rest))
        have hv : parseJv f (printJv v ++ '\x7d' :: rest) = .ok (v, '\x7d' :: rest) := by
          apply ihP
          · simp only [printJvFields, List.length_cons, List.length_append] at hlen
            omega
          · rfl
        rw [hx, parseJvFields.eq_def]
        simp [hstr, hv, Except.bind, headIs, string_mk_data]
      | cons f2 fs2 =>
        obtain ⟨k2, v2⟩ := f2
        have hx : printJvFields ((k, v) :: (k2, v2) :: fs2) ++ '\x7d' :: rest =
            '"' :: (escapeChars k.data ++ '"' :: (':' :: (printJv v ++
              (',' :: (printJvFields ((k2, v2) :: fs2) ++ '\x7d' :: rest))))) := by
          simp [printJvFields]
        have hstr := parseStrBody_escape k.data []
          (':' :: (printJv v ++ (',' :: (printJvFields ((k2, v2) :: fs2) ++ '\x7d' :: rest))))
        have hv : parseJv f (printJv v ++
            (',' :: (printJvFields ((k2, v2) :: fs2) ++ '\x7d' :: rest))) =
            .ok (v, ',' :: (printJvFields ((k2, v2) :: fs2) ++ '\x7d' :: rest)) := by
          apply ihP
          · simp only [printJvFields, List.length_cons, List.length_append] at hlen
            omega
          · rfl
        have hr' : parseJvFields f (printJvFields ((k2, v2) :: fs2) ++ '\x7d' :: rest) =
            .ok ((k2, v2) :: fs2, rest) := by
          apply ihR
          have hvp := printJv_length_pos v
          simp only [printJvFields, List.length_cons, List.length_append] at hlen
          omega
        rw [hx, parseJvFields.eq_def]
        simp [hstr, hv, hr', Except.bind, headIs, string_mk_data]

/-- Rebuilding a string from an explicit character list exposes that list. -/
theorem string_data_mk (l : List Char) : (String.mk l).data = l := rfl

/-- The modelled safe parse inverts the modelled stringification. -/
theorem safeJsonParse_print (v : Jv) : safeJsonParse (String.mk (printJv v)) = .ok v := by
  have h := (parse_printJv_all ((printJv v).length + 1)).1 v [] (by omega) rfl
  rw [List.append_nil] at h
  unfold safeJsonParse
  rw [string_data_mk, h]

/-- The modelled byte coding is an exact inverse pair. -/
theorem textDecode_encode (s : String) : textDecode (textEncode s) = s := by
  unfold textDecode textEncode
  rw [List.map_map]
  have h : (Char.ofNat ∘ Char.toNat) = id := funext Char.ofNat_toNat
  rw [h, List.map_id, string_mk_data]

/-- A guard-accepted value is an object, hence not falsy. -/
theorem gossip_not_falsy (v : Jv) (h : isGossipMessage v = true) : jsFalsy v = false := by
  cases v <;> first
    | rfl
    | simp [isGossipMessage] at h

/-- C10: encode followed by decode is a round-trip on every valid gossip
envelope: decodeMessage applied to the bytes encodeMessage produces returns
exactly the encoded value. -/
theorem encode_decode_roundtrip (v : Jv) (h : isGossipMessage v = true) :
    (encodeMessage v).bind decodeMessage = .ok v := by
  have henc : encodeMessage v = .ok (textEncode (String.mk (printJv v))) := by
    unfold encodeMessage
    rw [h]
    simp [safeJsonStringify]
  rw [henc]
  show decodeMessage (textEncode (String.mk (printJv v))) = .ok v
  unfold decodeMessage
  rw [textDecode_encode]
  simp only [safeJsonParse_print]
  simp [Except.bind, gossip_not_falsy v h, h]

/-- C10 witness: the concrete gossip envelope round-trips, its guard evaluated
by rfl and the theorem applied. -/
theorem encode_decode_roundtrip_witness :
    isGossipMessage exGossip = true ∧
      (encodeMessage exGossip).bind decodeMessage = .ok exGossip :=
  ⟨rfl, encode_decode_roundtrip exGossip rfl⟩

/-- C8: a value the gossip guard rejects makes encodeMessage return the
bad_request.parse_failure error (the spec's bad_input kind) instead of
producing bytes, and any byte array parsing to such a value makes
decodeMessage return the same error instead of a message. -/
theorem encode_decode_reject (v : Jv) (h : isGossipMessage v = false) :
    encodeMessage v = .error (mkHubError "bad_request.parse_failure" "invalid gossip message")
    ∧ ∀ data : List Nat, safeJsonParse (textDecode data) = .ok v →
        decodeMessage data =
          .error (mkHubError "bad_request.parse_failure" "invalid gossip message") := by
  constructor
  · unfold encodeMessage
    rw [h]
    rfl
  · intro data hparse
    unfold decodeMessage
    simp [hparse, Except.bind, h]

/-- C8 witness: the theorem applied at the null value, whose guard evaluates
to false. -/
theorem encode_decode_reject_witness :
    isGossipMessage Jv.jnull = false ∧
      encodeMessage Jv.jnull =
        .error (mkHubError "bad_request.parse_failure" "invalid gossip message") :=
  ⟨rfl, (encode_decode_reject Jv.jnull rfl).1⟩
